import Mathlib

/-!
# SQL constraint values (`pkg/sqlschema/constraint.go`)

A shallow embedding of the constraint value model: the three concrete
constraint kinds, their naming rules, structural equality and the two DDL
renderers, followed by theorems about them.

Conventions of the embedding:
* Go `string` and `[]byte` are both `String`; the code only concatenates them
  and compares them for equality.
* A pointer to a struct is the struct value; nil receivers are not modelled.
* The `Constraint` interface is the closed sum of its three implementers.
* `map[ColumnName]bool` is a total function to `Bool` (an absent key reads
  as `false`, the zero value).
-/

namespace sqlschema

/-! ## Collaborators declared outside `constraint.go` -/

/-- Modelled from the spec: the `TableName` identifier type, declared elsewhere
in the package; an opaque string-like identifier compared byte for byte. -/
abbrev TableName := String

/-- Modelled from the spec: the `ColumnName` identifier type, declared elsewhere
in the package; an opaque string-like identifier compared byte for byte. -/
abbrev ColumnName := String

/-- Modelled from the spec: `valuer.String`, the string wrapper behind a
constraint-kind tag; it carries the short lowercase code of the kind. -/
structure ValuerString where
  val : String
  deriving DecidableEq, Repr

/-- Modelled from the spec: `valuer.NewString` on the two-letter lowercase kind
codes (`pk`, `fk`, `ck`, `uq`), which it stores unchanged. -/
def ValuerString.NewString (s : String) : ValuerString := ⟨s⟩

/-- Modelled from the spec: `valuer.String.String`, the stored code. -/
def ValuerString.String (v : ValuerString) : String := v.val

/-- Modelled from the spec: the `SQLFormatter` capability, whose one operation
appends a quoted identifier to a buffer and returns the grown buffer. -/
structure SQLFormatter where
  AppendIdent : String → String → String

/-- Modelled from the spec: the external `UniqueIndex` descriptor, of which
`ToIndex` fills the table name and the column names. -/
structure UniqueIndex where
  TableName : TableName
  ColumnNames : List ColumnName
  deriving DecidableEq, Repr

/-! ## Constraint kinds -/

structure ConstraintType where
  s : ValuerString
  deriving DecidableEq, Repr

def ConstraintTypePrimaryKey : ConstraintType := { s := ValuerString.NewString "pk" }
def ConstraintTypeForeignKey : ConstraintType := { s := ValuerString.NewString "fk" }
def ConstraintTypeCheck : ConstraintType := { s := ValuerString.NewString "ck" }
def ConstraintTypeUnique : ConstraintType := { s := ValuerString.NewString "uq" }

def ConstraintType.String (c : ConstraintType) : String := c.s.String

/-! ## The concrete constraint values -/

structure PrimaryKeyConstraint where
  ColumnNames : List ColumnName
  name : String
  deriving DecidableEq, Repr

structure ForeignKeyConstraint where
  ReferencingColumnName : ColumnName
  ReferencedTableName : TableName
  ReferencedColumnName : ColumnName
  name : String
  deriving DecidableEq, Repr

structure UniqueConstraint where
  ColumnNames : List ColumnName
  name : String
  deriving DecidableEq, Repr

/-- The `Constraint` interface, as the sum of the types that implement it. -/
inductive Constraint where
  | pk (c : PrimaryKeyConstraint)
  | fk (c : ForeignKeyConstraint)
  | uq (c : UniqueConstraint)
  deriving DecidableEq, Repr

/-! ## Loops shared by the methods -/

/-- A Go `map[ColumnName]bool`; reading an absent key gives `false`. -/
abbrev ColumnMap := ColumnName → Bool

/-- The result of `make(map[ColumnName]bool)`. -/
def ColumnMap.empty : ColumnMap := fun _ => false

/-- The assignment `m[key] = v`. -/
def ColumnMap.set (m : ColumnMap) (key : ColumnName) (v : Bool) : ColumnMap :=
  fun k => if k = key then v else m k

/-- The loop `for _, column := range columns { foundColumns[column] = true }`. -/
def markColumns (foundColumns : ColumnMap) : List ColumnName → ColumnMap
  | [] => foundColumns
  | column :: rest => markColumns (foundColumns.set column true) rest

/-- The loop `for _, column := range columns { if !foundColumns[column] { return false } }`
followed by `return true`. -/
def allFound (foundColumns : ColumnMap) : List ColumnName → Bool
  | [] => true
  | column :: rest => if !foundColumns column then false else allFound foundColumns rest

/-- The loop `for i, column := range columns { if i > 0 { write sep }; write column }`
over an accumulator `b`, with `i` the index of the head of the remaining list.
`write` is how one column is appended (raw for names, quoted for SQL). -/
def writeSeparated (sep : String) (write : String → ColumnName → String) :
    Nat → String → List ColumnName → String
  | _, b, [] => b
  | i, b, column :: rest =>
    let b1 := if i > 0 then b ++ sep else b
    writeSeparated sep write (i + 1) (write b1 column) rest

/-! ## PrimaryKeyConstraint -/

def PrimaryKeyConstraint.Name (constraint : PrimaryKeyConstraint) (tableName : TableName) : String :=
  if constraint.name ≠ "" then constraint.name
  else
    let b := ""
    let b := b ++ ConstraintTypePrimaryKey.String
    let b := b ++ "_"
    let b := b ++ tableName
    b

def PrimaryKeyConstraint.Type (_constraint : PrimaryKeyConstraint) : ConstraintType :=
  ConstraintTypePrimaryKey

def PrimaryKeyConstraint.Columns (constraint : PrimaryKeyConstraint) : List ColumnName :=
  constraint.ColumnNames

/-! ## ForeignKeyConstraint -/

def ForeignKeyConstraint.Name (constraint : ForeignKeyConstraint) (tableName : TableName) : String :=
  if constraint.name ≠ "" then constraint.name
  else
    let b := ""
    let b := b ++ ConstraintTypeForeignKey.String
    let b := b ++ "_"
    let b := b ++ tableName
    let b := b ++ "_"
    let b := b ++ constraint.ReferencingColumnName
    b

def ForeignKeyConstraint.Type (_constraint : ForeignKeyConstraint) : ConstraintType :=
  ConstraintTypeForeignKey

def ForeignKeyConstraint.Columns (constraint : ForeignKeyConstraint) : List ColumnName :=
  [constraint.ReferencingColumnName]

/-! ## UniqueConstraint -/

def UniqueConstraint.Name (constraint : UniqueConstraint) (tableName : TableName) : String :=
  if constraint.name ≠ "" then constraint.name
  else
    let b := ""
    let b := b ++ ConstraintTypeUnique.String
    let b := b ++ "_"
    let b := b ++ tableName
    let b := b ++ "_"
    writeSeparated "_" (fun b column => b ++ column) 0 b constraint.ColumnNames

def UniqueConstraint.Type (_constraint : UniqueConstraint) : ConstraintType :=
  ConstraintTypeUnique

def UniqueConstraint.Columns (constraint : UniqueConstraint) : List ColumnName :=
  constraint.ColumnNames

/-! ## Interface dispatch for the accessors -/

def Constraint.Type : Constraint → ConstraintType
  | .pk c => c.Type
  | .fk c => c.Type
  | .uq c => c.Type

def Constraint.Columns : Constraint → List ColumnName
  | .pk c => c.Columns
  | .fk c => c.Columns
  | .uq c => c.Columns

def Constraint.Name : Constraint → TableName → String
  | .pk c => c.Name
  | .fk c => c.Name
  | .uq c => c.Name

/-! ## Named -/

def PrimaryKeyConstraint.Named (constraint : PrimaryKeyConstraint) (name : String) : Constraint :=
  let copyOfColumnNames := constraint.ColumnNames
  .pk { ColumnNames := copyOfColumnNames, name := name }

def ForeignKeyConstraint.Named (constraint : ForeignKeyConstraint) (name : String) : Constraint :=
  .fk { ReferencingColumnName := constraint.ReferencingColumnName
        ReferencedTableName := constraint.ReferencedTableName
        ReferencedColumnName := constraint.ReferencedColumnName
        name := name }

def UniqueConstraint.Named (constraint : UniqueConstraint) (name : String) : Constraint :=
  let copyOfColumnNames := constraint.ColumnNames
  .uq { ColumnNames := copyOfColumnNames, name := name }

def Constraint.Named : Constraint → String → Constraint
  | .pk c => c.Named
  | .fk c => c.Named
  | .uq c => c.Named

/-! ## Equals -/

def PrimaryKeyConstraint.Equals (constraint : PrimaryKeyConstraint) (other : Constraint) : Bool :=
  if other.Type ≠ ConstraintTypePrimaryKey then false
  else if constraint.ColumnNames.length ≠ other.Columns.length then false
  else
    let foundColumns := markColumns ColumnMap.empty constraint.ColumnNames
    allFound foundColumns other.Columns

def ForeignKeyConstraint.Equals (constraint : ForeignKeyConstraint) (other : Constraint) : Bool :=
  if other.Type ≠ ConstraintTypeForeignKey then false
  else
    match other with
    | .fk otherForeignKeyConstraint =>
      constraint.ReferencingColumnName == otherForeignKeyConstraint.ReferencingColumnName &&
        constraint.ReferencedTableName == otherForeignKeyConstraint.ReferencedTableName &&
        constraint.ReferencedColumnName == otherForeignKeyConstraint.ReferencedColumnName
    | _ => false

def UniqueConstraint.Equals (constraint : UniqueConstraint) (other : Constraint) : Bool :=
  if other.Type ≠ ConstraintTypeUnique then false
  else
    let foundColumns := markColumns ColumnMap.empty constraint.ColumnNames
    allFound foundColumns other.Columns

def Constraint.Equals : Constraint → Constraint → Bool
  | .pk c => c.Equals
  | .fk c => c.Equals
  | .uq c => c.Equals

/-! ## Rendering -/

def PrimaryKeyConstraint.ToDefinitionSQL (constraint : PrimaryKeyConstraint)
    (fmter : SQLFormatter) (tableName : TableName) : String :=
  let sql := ""
  let sql := sql ++ "CONSTRAINT "
  let sql := fmter.AppendIdent sql (constraint.Name tableName)
  let sql := sql ++ " PRIMARY KEY ("
  let sql := writeSeparated ", " fmter.AppendIdent 0 sql constraint.ColumnNames
  let sql := sql ++ ")"
  sql

def PrimaryKeyConstraint.ToDropSQL (constraint : PrimaryKeyConstraint)
    (fmter : SQLFormatter) (tableName : TableName) : String :=
  let sql := ""
  let sql := sql ++ "ALTER TABLE "
  let sql := fmter.AppendIdent sql tableName
  let sql := sql ++ " DROP CONSTRAINT IF EXISTS "
  let sql := fmter.AppendIdent sql (constraint.Name tableName)
  sql

def ForeignKeyConstraint.ToDefinitionSQL (constraint : ForeignKeyConstraint)
    (fmter : SQLFormatter) (tableName : TableName) : String :=
  let sql := ""
  let sql := sql ++ "CONSTRAINT "
  let sql := fmter.AppendIdent sql (constraint.Name tableName)
  let sql := sql ++ " FOREIGN KEY ("
  let sql := fmter.AppendIdent sql constraint.ReferencingColumnName
  let sql := sql ++ ") REFERENCES "
  let sql := fmter.AppendIdent sql constraint.ReferencedTableName
  let sql := sql ++ " ("
  let sql := fmter.AppendIdent sql constraint.ReferencedColumnName
  let sql := sql ++ ")"
  sql

def ForeignKeyConstraint.ToDropSQL (constraint : ForeignKeyConstraint)
    (fmter : SQLFormatter) (tableName : TableName) : String :=
  let sql := ""
  let sql := sql ++ "ALTER TABLE "
  let sql := fmter.AppendIdent sql tableName
  let sql := sql ++ " DROP CONSTRAINT IF EXISTS "
  let sql := fmter.AppendIdent sql (constraint.Name tableName)
  sql

def UniqueConstraint.ToIndex (constraint : UniqueConstraint) (tableName : TableName) : UniqueIndex :=
  let copyOfColumnNames := constraint.ColumnNames
  { TableName := tableName, ColumnNames := copyOfColumnNames }

def UniqueConstraint.ToDefinitionSQL (constraint : UniqueConstraint)
    (fmter : SQLFormatter) (tableName : TableName) : String :=
  let sql := ""
  let sql := sql ++ "CONSTRAINT "
  let sql := fmter.AppendIdent sql (constraint.Name tableName)
  let sql := sql ++ " UNIQUE ("
  let sql := writeSeparated ", " fmter.AppendIdent 0 sql constraint.ColumnNames
  let sql := sql ++ ")"
  sql

def UniqueConstraint.ToDropSQL (constraint : UniqueConstraint)
    (fmter : SQLFormatter) (tableName : TableName) : String :=
  let sql := ""
  let sql := sql ++ "ALTER TABLE "
  let sql := fmter.AppendIdent sql tableName
  let sql := sql ++ " DROP CONSTRAINT IF EXISTS "
  let sql := fmter.AppendIdent sql (constraint.Name tableName)
  sql

def Constraint.ToDefinitionSQL : Constraint → SQLFormatter → TableName → String
  | .pk c => c.ToDefinitionSQL
  | .fk c => c.ToDefinitionSQL
  | .uq c => c.ToDefinitionSQL

def Constraint.ToDropSQL : Constraint → SQLFormatter → TableName → String
  | .pk c => c.ToDropSQL
  | .fk c => c.ToDropSQL
  | .uq c => c.ToDropSQL

/-! ## The formatter of the end-to-end scenarios -/

/-- Modelled from the spec: the formatter of the concrete scenarios, which
encloses an identifier in double quotes and escapes nothing. -/
def doubleQuoteFormatter : SQLFormatter :=
  { AppendIdent := fun b ident => b ++ "\"" ++ ident ++ "\"" }

/-! ## Named over an explicit heap

The methods above take constraints as values. To state what a call leaves
untouched, `Named` is embedded a second time with the receiver behind a
pointer and the column slices in backing arrays. -/

/-- A Go slice of column names: the address of its backing array and its length. -/
structure ColumnSlice where
  array : Nat
  len : Nat
  deriving DecidableEq, Repr

/-- What one heap address holds: a backing array of column names, or one of the
three constraint structs (the foreign key has no slice inside). -/
inductive Cell where
  | columns (elems : List ColumnName)
  | primaryKey (ColumnNames : ColumnSlice) (name : String)
  | foreignKey (value : ForeignKeyConstraint)
  | unique (ColumnNames : ColumnSlice) (name : String)
  deriving DecidableEq, Repr

/-- The heap: the cells allocated so far; an address is an index. -/
abbrev Heap := List Cell

/-- Allocation of one cell, which takes the next free address. -/
def Heap.alloc (h : Heap) (cell : Cell) : Heap × Nat :=
  (h ++ [cell], h.length)

/-- The call `make([]ColumnName, n)`: a fresh backing array of `n` zero values. -/
def Heap.makeColumns (h : Heap) (n : Nat) : Heap × ColumnSlice :=
  let (h1, array) := h.alloc (.columns (List.replicate n ""))
  (h1, { array := array, len := n })

/-- The elements of a slice that lies within an allocated backing array. -/
def Heap.readColumns (h : Heap) (s : ColumnSlice) : Option (List ColumnName) :=
  match h[s.array]? with
  | some (.columns elems) => if s.len ≤ elems.length then some (elems.take s.len) else none
  | _ => none

/-- The call `copy(dst, src)`: the first `min(len(dst), len(src))` elements of the
backing array of `dst` are overwritten with those of `src`. -/
def Heap.copyColumns (h : Heap) (dst src : ColumnSlice) : Heap :=
  match h[dst.array]?, h.readColumns src with
  | some (.columns d), some elems =>
    let n := min dst.len src.len
    List.set h dst.array (.columns (elems.take n ++ d.drop n))
  | _, _ => h

/-- The constraint value behind a pointer, when the pointer and the slice of
the struct are valid. -/
def Heap.load (h : Heap) (p : Nat) : Option Constraint :=
  match h[p]? with
  | some (.primaryKey ColumnNames name) =>
    (h.readColumns ColumnNames).map fun cols => .pk { ColumnNames := cols, name := name }
  | some (.foreignKey value) => some (.fk value)
  | some (.unique ColumnNames name) =>
    (h.readColumns ColumnNames).map fun cols => .uq { ColumnNames := cols, name := name }
  | _ => none

/-- The method `PrimaryKeyConstraint.Named` on a receiver pointer: the heap after
the call and the pointer returned. -/
def PrimaryKeyConstraint.NamedAt (h : Heap) (constraint : Nat) (name : String) :
    Option (Heap × Nat) :=
  match h[constraint]? with
  | some (.primaryKey ColumnNames _) =>
    let (h1, copyOfColumnNames) := h.makeColumns ColumnNames.len
    let h2 := h1.copyColumns copyOfColumnNames ColumnNames
    some (h2.alloc (.primaryKey copyOfColumnNames name))
  | _ => none

/-- The method `ForeignKeyConstraint.Named` on a receiver pointer. -/
def ForeignKeyConstraint.NamedAt (h : Heap) (constraint : Nat) (name : String) :
    Option (Heap × Nat) :=
  match h[constraint]? with
  | some (.foreignKey value) =>
    some (h.alloc (.foreignKey
      { ReferencingColumnName := value.ReferencingColumnName
        ReferencedTableName := value.ReferencedTableName
        ReferencedColumnName := value.ReferencedColumnName
        name := name }))
  | _ => none

/-- The method `UniqueConstraint.Named` on a receiver pointer. -/
def UniqueConstraint.NamedAt (h : Heap) (constraint : Nat) (name : String) :
    Option (Heap × Nat) :=
  match h[constraint]? with
  | some (.unique ColumnNames _) =>
    let (h1, copyOfColumnNames) := h.makeColumns ColumnNames.len
    let h2 := h1.copyColumns copyOfColumnNames ColumnNames
    some (h2.alloc (.unique copyOfColumnNames name))
  | _ => none

/-- The call `c.Named(name)` through the interface: dispatch on the struct the
pointer refers to. -/
def Constraint.NamedAt (h : Heap) (c : Nat) (name : String) : Option (Heap × Nat) :=
  match h[c]? with
  | some (.primaryKey _ _) => PrimaryKeyConstraint.NamedAt h c name
  | some (.foreignKey _) => ForeignKeyConstraint.NamedAt h c name
  | some (.unique _ _) => UniqueConstraint.NamedAt h c name
  | _ => none

/-! ## Lemmas on the loops -/

theorem markColumns_apply (m : ColumnMap) (cols : List ColumnName) (k : ColumnName) :
    markColumns m cols k = true ↔ k ∈ cols ∨ m k = true := by
  induction cols generalizing m with
  | nil => simp [markColumns]
  | cons c rest ih =>
    simp only [markColumns, ih, ColumnMap.set, List.mem_cons]
    by_cases h : k = c <;> simp [h]

theorem markColumns_empty_apply (cols : List ColumnName) (k : ColumnName) :
    markColumns ColumnMap.empty cols k = true ↔ k ∈ cols := by
  simp [markColumns_apply, ColumnMap.empty]

theorem allFound_iff (m : ColumnMap) (cols : List ColumnName) :
    allFound m cols = true ↔ ∀ x ∈ cols, m x = true := by
  induction cols with
  | nil => simp [allFound]
  | cons c rest ih =>
    simp only [allFound, List.mem_cons, forall_eq_or_imp]
    cases h : m c <;> simp [ih]

/-- What the primary-key comparison computes on two primary keys. -/
theorem pk_equals_pk_iff (p q : PrimaryKeyConstraint) :
    p.Equals (.pk q) = true ↔
      p.ColumnNames.length = q.ColumnNames.length ∧ ∀ x ∈ q.ColumnNames, x ∈ p.ColumnNames := by
  simp [PrimaryKeyConstraint.Equals, Constraint.Type, PrimaryKeyConstraint.Type, Constraint.Columns,
    PrimaryKeyConstraint.Columns, allFound_iff, markColumns_empty_apply]

/-- What the unique comparison computes on two unique constraints. -/
theorem uq_equals_uq_iff (u v : UniqueConstraint) :
    u.Equals (.uq v) = true ↔ ∀ x ∈ v.ColumnNames, x ∈ u.ColumnNames := by
  simp [UniqueConstraint.Equals, Constraint.Type, UniqueConstraint.Type, Constraint.Columns,
    UniqueConstraint.Columns, allFound_iff, markColumns_empty_apply]

/-- What the foreign-key comparison computes on two foreign keys. -/
theorem fk_equals_fk_iff (f g : ForeignKeyConstraint) :
    f.Equals (.fk g) = true ↔
      f.ReferencingColumnName = g.ReferencingColumnName ∧
        f.ReferencedTableName = g.ReferencedTableName ∧
        f.ReferencedColumnName = g.ReferencedColumnName := by
  simp [ForeignKeyConstraint.Equals, Constraint.Type, ForeignKeyConstraint.Type, and_assoc]

/-- A duplicate-free list contained in a list that is no longer has the same
members as that list. -/
theorem subset_of_nodup_of_subset_of_length_le {l₁ l₂ : List ColumnName} (hd : l₁.Nodup)
    (hsub : ∀ x ∈ l₁, x ∈ l₂) (hlen : l₂.length ≤ l₁.length) : ∀ x ∈ l₂, x ∈ l₁ := by
  have hperm : l₁.Perm l₂ := (List.subperm_of_subset hd hsub).perm_of_length_le hlen
  intro x hx
  exact hperm.mem_iff.mpr hx

theorem toFinset_eq_iff_mem {l₁ l₂ : List ColumnName} :
    l₁.toFinset = l₂.toFinset ↔ ∀ x, x ∈ l₁ ↔ x ∈ l₂ := by
  simp [Finset.ext_iff]

/-- The kind tags of the three implemented kinds are pairwise distinct. -/
theorem constraintTypes_distinct :
    ConstraintTypePrimaryKey ≠ ConstraintTypeForeignKey ∧
      ConstraintTypePrimaryKey ≠ ConstraintTypeUnique ∧
      ConstraintTypeForeignKey ≠ ConstraintTypeUnique := by
  decide

/-- The comparison through the interface, by the kinds of its two sides: only
two constraints of one kind can be equal. -/
theorem equals_eq_true_iff (a b : Constraint) :
    a.Equals b = true ↔
      (∃ p q, a = .pk p ∧ b = .pk q ∧
        p.ColumnNames.length = q.ColumnNames.length ∧ ∀ x ∈ q.ColumnNames, x ∈ p.ColumnNames) ∨
      (∃ f g, a = .fk f ∧ b = .fk g ∧
        f.ReferencingColumnName = g.ReferencingColumnName ∧
        f.ReferencedTableName = g.ReferencedTableName ∧
        f.ReferencedColumnName = g.ReferencedColumnName) ∨
      (∃ u v, a = .uq u ∧ b = .uq v ∧ ∀ x ∈ v.ColumnNames, x ∈ u.ColumnNames) := by
  cases a with
  | pk p =>
    cases b with
    | pk q => simp [Constraint.Equals, pk_equals_pk_iff]
    | fk g =>
      simp [Constraint.Equals, PrimaryKeyConstraint.Equals, Constraint.Type,
        ForeignKeyConstraint.Type, constraintTypes_distinct.1.symm]
    | uq v =>
      simp [Constraint.Equals, PrimaryKeyConstraint.Equals, Constraint.Type,
        UniqueConstraint.Type, constraintTypes_distinct.2.1.symm]
  | fk f =>
    cases b with
    | pk q =>
      simp [Constraint.Equals, ForeignKeyConstraint.Equals, Constraint.Type,
        PrimaryKeyConstraint.Type]
    | fk g => simp [Constraint.Equals, fk_equals_fk_iff]
    | uq v =>
      simp [Constraint.Equals, ForeignKeyConstraint.Equals, Constraint.Type,
        UniqueConstraint.Type]
  | uq u =>
    cases b with
    | pk q =>
      simp [Constraint.Equals, UniqueConstraint.Equals, Constraint.Type,
        PrimaryKeyConstraint.Type, constraintTypes_distinct.2.1]
    | fk g =>
      simp [Constraint.Equals, UniqueConstraint.Equals, Constraint.Type,
        ForeignKeyConstraint.Type, constraintTypes_distinct.2.2]
    | uq v => simp [Constraint.Equals, uq_equals_uq_iff]

/-! ## Lemmas on the separator loop -/

theorem intercalate_go_append (a b sep : String) (l : List String) :
    String.intercalate.go (a ++ b) sep l = a ++ String.intercalate.go b sep l := by
  induction l generalizing b with
  | nil => simp [String.intercalate.go]
  | cons x xs ih =>
    simp only [String.intercalate.go]
    rw [String.append_assoc a b sep, String.append_assoc a (b ++ sep) x, ih]

theorem writeSeparated_append_succ (sep b : String) (l : List ColumnName) (i : Nat) :
    writeSeparated sep (fun b column => b ++ column) (i + 1) b l =
      String.intercalate.go b sep l := by
  induction l generalizing b i with
  | nil => simp [writeSeparated, String.intercalate.go]
  | cons x xs ih => simp [writeSeparated, String.intercalate.go, ih]

/-- The name loop, started at index 0, appends the columns joined by the
separator. -/
theorem writeSeparated_append_zero (sep b : String) (l : List ColumnName) :
    writeSeparated sep (fun b column => b ++ column) 0 b l = b ++ sep.intercalate l := by
  cases l with
  | nil => simp [writeSeparated, String.intercalate]
  | cons x xs =>
    simp [writeSeparated, String.intercalate, writeSeparated_append_succ, intercalate_go_append]

theorem writeSeparated_quoted_succ (sep b : String) (write : String → ColumnName → String)
    (q : String → String) (hw : ∀ b s, write b s = b ++ q s) (l : List ColumnName) (i : Nat) :
    writeSeparated sep write (i + 1) b l = String.intercalate.go b sep (l.map q) := by
  induction l generalizing b i with
  | nil => simp [writeSeparated, String.intercalate.go]
  | cons x xs ih => simp [writeSeparated, String.intercalate.go, ih, hw]

/-- The column loop of the renderers, started at index 0 with a writer that
appends the quoted form of a column, appends the quoted columns joined by the
separator. -/
theorem writeSeparated_quoted_zero (sep b : String) (write : String → ColumnName → String)
    (q : String → String) (hw : ∀ b s, write b s = b ++ q s) (l : List ColumnName) :
    writeSeparated sep write 0 b l = b ++ sep.intercalate (l.map q) := by
  cases l with
  | nil => simp [writeSeparated, String.intercalate]
  | cons x xs =>
    simp [writeSeparated, String.intercalate, writeSeparated_quoted_succ sep _ write q hw,
      intercalate_go_append, hw]

/-- The scenario formatter appends the identifier between double quotes. -/
theorem doubleQuoteFormatter_appendIdent (b s : String) :
    doubleQuoteFormatter.AppendIdent b s = b ++ ("\"" ++ s ++ "\"") := by
  simp [doubleQuoteFormatter, String.append_assoc]

/-- The drop statement of any constraint, with a formatter that appends the
quoted form of an identifier. -/
theorem toDropSQL_eq (c : Constraint) (t : TableName) (fmter : SQLFormatter)
    (q : String → String) (hq : ∀ b s, fmter.AppendIdent b s = b ++ q s) :
    c.ToDropSQL fmter t =
      "ALTER TABLE " ++ q t ++ " DROP CONSTRAINT IF EXISTS " ++ q (c.Name t) := by
  cases c <;>
    simp [Constraint.ToDropSQL, PrimaryKeyConstraint.ToDropSQL, ForeignKeyConstraint.ToDropSQL,
      UniqueConstraint.ToDropSQL, Constraint.Name, hq]

/-- Every definition fragment is some text followed by a closing parenthesis,
whatever the formatter does. -/
theorem toDefinitionSQL_eq_append_paren (c : Constraint) (t : TableName) (fmter : SQLFormatter) :
    ∃ pre : String, c.ToDefinitionSQL fmter t = pre ++ ")" := by
  cases c <;>
    exact ⟨_, by simp only [Constraint.ToDefinitionSQL, PrimaryKeyConstraint.ToDefinitionSQL,
      ForeignKeyConstraint.ToDefinitionSQL, UniqueConstraint.ToDefinitionSQL]; rfl⟩

theorem getLast?_append_singleton (a : String) (c : Char) :
    (a ++ String.singleton c).data.getLast? = some c := by
  simp [String.singleton]

/-! ## Equality of primary keys and of unique constraints by column set -/

/-- C1, as stated, fails: a primary key on [a, b] equals one on [a, a] although
the column sets differ, and a primary key on [a, a] does not equal one on [a]
although the column sets agree. -/
theorem primaryKey_equals_set_counterexample :
    (PrimaryKeyConstraint.Equals ⟨["a", "b"], ""⟩ (.pk ⟨["a", "a"], ""⟩) = true ∧
        (["a", "b"] : List ColumnName).toFinset ≠ (["a", "a"] : List ColumnName).toFinset) ∧
      (PrimaryKeyConstraint.Equals ⟨["a", "a"], ""⟩ (.pk ⟨["a"], ""⟩) = false ∧
        (["a", "a"] : List ColumnName).toFinset = (["a"] : List ColumnName).toFinset) := by
  decide

/-- C1, amended: for primary keys p and q whose column lists contain no
duplicate (any explicit names), p.Equals(q) is true if and only if p and q have
the same set of columns. -/
theorem primaryKey_equals_iff_same_columns_of_nodup (p q : PrimaryKeyConstraint)
    (hp : p.ColumnNames.Nodup) (hq : q.ColumnNames.Nodup) :
    p.Equals (.pk q) = true ↔ p.ColumnNames.toFinset = q.ColumnNames.toFinset := by
  rw [pk_equals_pk_iff, toFinset_eq_iff_mem]
  constructor
  · rintro ⟨hlen, hsub⟩ x
    exact ⟨subset_of_nodup_of_subset_of_length_le hq hsub hlen.le x, hsub x⟩
  · intro h
    have hperm : p.ColumnNames.Perm q.ColumnNames := (List.perm_ext_iff_of_nodup hp hq).mpr h
    exact ⟨hperm.length_eq, fun x hx => (h x).mpr hx⟩

/-- Witness for C1 (amended): primary keys on [a, b] and on [b, a]. -/
theorem primaryKey_equals_iff_same_columns_of_nodup_witness :
    PrimaryKeyConstraint.Equals ⟨["a", "b"], "x"⟩ (.pk ⟨["b", "a"], ""⟩) = true ↔
      (["a", "b"] : List ColumnName).toFinset = (["b", "a"] : List ColumnName).toFinset :=
  primaryKey_equals_iff_same_columns_of_nodup ⟨["a", "b"], "x"⟩ ⟨["b", "a"], ""⟩
    (by decide) (by decide)

/-- C2, as stated, fails: a unique constraint on [a, b] equals one on [a, a] and
one on [a], although neither has the same column set as [a, b]. -/
theorem unique_equals_set_counterexample :
    (UniqueConstraint.Equals ⟨["a", "b"], ""⟩ (.uq ⟨["a", "a"], ""⟩) = true ∧
        (["a", "b"] : List ColumnName).toFinset ≠ (["a", "a"] : List ColumnName).toFinset) ∧
      (UniqueConstraint.Equals ⟨["a", "b"], ""⟩ (.uq ⟨["a"], ""⟩) = true ∧
        (["a", "b"] : List ColumnName).toFinset ≠ (["a"] : List ColumnName).toFinset) := by
  decide

/-- C2, amended: for unique constraints u and v (any explicit names) with the
same number of columns and no duplicate among the columns of v, u.Equals(v) is
true if and only if u and v have the same set of columns. -/
theorem unique_equals_iff_same_columns_of_nodup (u v : UniqueConstraint)
    (hv : v.ColumnNames.Nodup) (hlen : u.ColumnNames.length = v.ColumnNames.length) :
    u.Equals (.uq v) = true ↔ u.ColumnNames.toFinset = v.ColumnNames.toFinset := by
  rw [uq_equals_uq_iff, toFinset_eq_iff_mem]
  constructor
  · intro hsub x
    exact ⟨subset_of_nodup_of_subset_of_length_le hv hsub hlen.le x, hsub x⟩
  · intro h x hx
    exact (h x).mpr hx

/-- Witness for C2 (amended): unique constraints on [a, b] and on [b, a]. -/
theorem unique_equals_iff_same_columns_of_nodup_witness :
    UniqueConstraint.Equals ⟨["a", "b"], "x"⟩ (.uq ⟨["b", "a"], ""⟩) = true ↔
      (["a", "b"] : List ColumnName).toFinset = (["b", "a"] : List ColumnName).toFinset :=
  unique_equals_iff_same_columns_of_nodup ⟨["a", "b"], "x"⟩ ⟨["b", "a"], ""⟩
    (by decide) (by decide)

/-! ## Equality as a relation -/

/-- C3, as stated, fails on symmetry: a primary key on [a, b] equals one on
[a, a] but not the other way round, and a unique constraint on [a, b] equals
one on [a] but not the other way round. -/
theorem equals_symmetry_counterexample :
    (Constraint.Equals (.pk ⟨["a", "b"], ""⟩) (.pk ⟨["a", "a"], ""⟩) = true ∧
        Constraint.Equals (.pk ⟨["a", "a"], ""⟩) (.pk ⟨["a", "b"], ""⟩) = false) ∧
      (Constraint.Equals (.uq ⟨["a", "b"], ""⟩) (.uq ⟨["a"], ""⟩) = true ∧
        Constraint.Equals (.uq ⟨["a"], ""⟩) (.uq ⟨["a", "b"], ""⟩) = false) := by
  decide

/-- C3, amended: for all constraints a, b, c, a.Equals(a) is true, and a.Equals(b)
with b.Equals(c) implies a.Equals(c); a.Equals(b) implies b.Equals(a) whenever
b.Columns() has no duplicate and as many entries as a.Columns(), which is always
so for two foreign keys. -/
theorem equals_refl_trans_symm (a b c : Constraint) :
    a.Equals a = true ∧
      (a.Equals b = true → b.Equals c = true → a.Equals c = true) ∧
      (b.Columns.Nodup → a.Columns.length = b.Columns.length →
        a.Equals b = true → b.Equals a = true) ∧
      (∀ f g : ForeignKeyConstraint, (Constraint.fk g).Columns.Nodup ∧
        (Constraint.fk f).Columns.length = (Constraint.fk g).Columns.length) := by
  refine ⟨?_, ?_, ?_, ?_⟩
  · cases a <;> simp [equals_eq_true_iff]
  · intro hab hbc
    rw [equals_eq_true_iff] at hab hbc ⊢
    rcases hab with ⟨p, q, rfl, rfl, hl, hs⟩ | ⟨f, g, rfl, rfl, h1, h2, h3⟩ | ⟨u, v, rfl, rfl, hs⟩
    · rcases hbc with ⟨q', r, hq, rfl, hl', hs'⟩ | ⟨_, _, hq, _⟩ | ⟨_, _, hq, _⟩
      · cases hq
        exact Or.inl ⟨p, r, rfl, rfl, hl.trans hl', fun x hx => hs x (hs' x hx)⟩
      · cases hq
      · cases hq
    · rcases hbc with ⟨_, _, hq, _⟩ | ⟨g', r, hq, rfl, h1', h2', h3'⟩ | ⟨_, _, hq, _⟩
      · cases hq
      · cases hq
        exact Or.inr (Or.inl ⟨f, r, rfl, rfl, h1.trans h1', h2.trans h2', h3.trans h3'⟩)
      · cases hq
    · rcases hbc with ⟨_, _, hq, _⟩ | ⟨_, _, hq, _⟩ | ⟨v', r, hq, rfl, hs'⟩
      · cases hq
      · cases hq
      · cases hq
        exact Or.inr (Or.inr ⟨u, r, rfl, rfl, fun x hx => hs x (hs' x hx)⟩)
  · intro hnd hlen hab
    rw [equals_eq_true_iff] at hab ⊢
    rcases hab with ⟨p, q, rfl, rfl, hl, hs⟩ | ⟨f, g, rfl, rfl, h1, h2, h3⟩ | ⟨u, v, rfl, rfl, hs⟩
    · exact Or.inl ⟨q, p, rfl, rfl, hl.symm,
        subset_of_nodup_of_subset_of_length_le hnd hs hl.le⟩
    · exact Or.inr (Or.inl ⟨g, f, rfl, rfl, h1.symm, h2.symm, h3.symm⟩)
    · exact Or.inr (Or.inr ⟨v, u, rfl, rfl,
        subset_of_nodup_of_subset_of_length_le hnd hs hlen.le⟩)
  · intro f g
    simp [Constraint.Columns, ForeignKeyConstraint.Columns]

/-- Witness for C3 (amended): unique constraints on [a, b], [b, a] and [a, b]. -/
theorem equals_refl_trans_symm_witness :
    Constraint.Equals (.uq ⟨["a", "b"], "x"⟩) (.uq ⟨["a", "b"], "x"⟩) = true ∧
      Constraint.Equals (.uq ⟨["a", "b"], "x"⟩) (.uq ⟨["a", "b"], "z"⟩) = true ∧
      Constraint.Equals (.uq ⟨["b", "a"], "y"⟩) (.uq ⟨["a", "b"], "x"⟩) = true :=
  have h := equals_refl_trans_symm (.uq ⟨["a", "b"], "x"⟩) (.uq ⟨["b", "a"], "y"⟩)
    (.uq ⟨["a", "b"], "z"⟩)
  ⟨h.1, h.2.1 (by decide) (by decide), h.2.2.1 (by decide) (by decide) (by decide)⟩

/-! ## Foreign keys and cross-kind comparison -/

/-- C4: two foreign keys are equal exactly when their referencing column,
referenced table and referenced column are equal; their explicit names play no
part. -/
theorem foreignKey_equals_iff_fields (f g : ForeignKeyConstraint) :
    f.Equals (.fk g) = true ↔
      f.ReferencingColumnName = g.ReferencingColumnName ∧
        f.ReferencedTableName = g.ReferencedTableName ∧
        f.ReferencedColumnName = g.ReferencedColumnName :=
  fk_equals_fk_iff f g

/-- C5: two constraints of different kinds are never equal, whatever their
columns and names; a unique constraint on [a, b] does not equal a primary key
on [a, b]. -/
theorem equals_false_of_type_ne (a b : Constraint) (h : a.Type ≠ b.Type) :
    a.Equals b = false := by
  rw [← Bool.not_eq_true, equals_eq_true_iff]
  rintro (⟨p, q, rfl, rfl, _⟩ | ⟨f, g, rfl, rfl, _⟩ | ⟨u, v, rfl, rfl, _⟩) <;>
    exact h rfl

/-- Witness for C5: a unique constraint against a primary key, both on [a, b]. -/
theorem equals_false_of_type_ne_witness :
    Constraint.Equals (.uq ⟨["a", "b"], ""⟩) (.pk ⟨["a", "b"], ""⟩) = false :=
  equals_false_of_type_ne (.uq ⟨["a", "b"], ""⟩) (.pk ⟨["a", "b"], ""⟩) (by decide)

/-! ## Column order and explicit names in equality -/

/-- C6: for a primary key c and a unique constraint u, a constraint of the same
kind whose columns are a permutation of the original columns (under any
explicit name) equals the original, in both directions. -/
theorem equals_of_perm_columns (c : PrimaryKeyConstraint) (u : UniqueConstraint)
    (p q : List ColumnName) (n m : String)
    (hp : p.Perm c.ColumnNames) (hq : q.Perm u.ColumnNames) :
    (c.Equals (.pk ⟨p, n⟩) = true ∧ PrimaryKeyConstraint.Equals ⟨p, n⟩ (.pk c) = true) ∧
      (u.Equals (.uq ⟨q, m⟩) = true ∧ UniqueConstraint.Equals ⟨q, m⟩ (.uq u) = true) := by
  simp only [pk_equals_pk_iff, uq_equals_uq_iff]
  exact ⟨⟨⟨hp.length_eq.symm, fun x hx => hp.mem_iff.mp hx⟩,
      ⟨hp.length_eq, fun x hx => hp.mem_iff.mpr hx⟩⟩,
    ⟨fun x hx => hq.mem_iff.mp hx, fun x hx => hq.mem_iff.mpr hx⟩⟩

/-- Witness for C6: a rotation of three columns and a swap of two. -/
theorem equals_of_perm_columns_witness :
    (PrimaryKeyConstraint.Equals ⟨["a", "b", "c"], ""⟩ (.pk ⟨["c", "a", "b"], "k"⟩) = true ∧
        PrimaryKeyConstraint.Equals ⟨["c", "a", "b"], "k"⟩ (.pk ⟨["a", "b", "c"], ""⟩) = true) ∧
      (UniqueConstraint.Equals ⟨["a", "b"], ""⟩ (.uq ⟨["b", "a"], "k"⟩) = true ∧
        UniqueConstraint.Equals ⟨["b", "a"], "k"⟩ (.uq ⟨["a", "b"], ""⟩) = true) :=
  equals_of_perm_columns ⟨["a", "b", "c"], ""⟩ ⟨["a", "b"], ""⟩ ["c", "a", "b"] ["b", "a"] "k" "k"
    (by decide) (by decide)

/-- C7: explicit names do not take part in equality: c.Named(n).Equals(c) is
true for every constraint c and string n, and a.Named(n).Equals(b.Named(m)) has
the value of a.Equals(b) for all constraints a, b and strings n, m. -/
theorem named_equals (a b : Constraint) (n m : String) :
    (a.Named n).Equals a = true ∧ (a.Named n).Equals (b.Named m) = a.Equals b := by
  constructor
  · cases a <;>
      simp [equals_eq_true_iff, Constraint.Named, PrimaryKeyConstraint.Named,
        ForeignKeyConstraint.Named, UniqueConstraint.Named]
  · rw [Bool.eq_iff_iff]
    cases a <;> cases b <;>
      simp [equals_eq_true_iff, Constraint.Named, PrimaryKeyConstraint.Named,
        ForeignKeyConstraint.Named, UniqueConstraint.Named]

/-! ## Names -/

/-- C8: a non-empty explicit name overrides the generated one: for every
constraint c, non-empty string n and table name t, c.Named(n).Name(t) is n. -/
theorem named_name_of_ne_empty (c : Constraint) (n : String) (t : TableName) (hn : n ≠ "") :
    (c.Named n).Name t = n := by
  cases c <;>
    simp [Constraint.Named, PrimaryKeyConstraint.Named, ForeignKeyConstraint.Named,
      UniqueConstraint.Named, Constraint.Name, PrimaryKeyConstraint.Name,
      ForeignKeyConstraint.Name, UniqueConstraint.Name, hn]

/-- Witness for C8: renaming a named unique constraint on table users. -/
theorem named_name_of_ne_empty_witness :
    ((Constraint.uq ⟨["email"], "old"⟩).Named "users_email_key").Name "users" =
      "users_email_key" :=
  named_name_of_ne_empty (.uq ⟨["email"], "old"⟩) "users_email_key" "users" (by decide)

/-- C9: renaming to the empty string clears the override: for every constraint,
whatever explicit name it carried, Named("").Name(t) is the generated name of
its kind: pk_t for a primary key, fk_t_rc for a foreign key with referencing
column rc, and uq_t_ followed by the columns joined by underscores for a unique
constraint. -/
theorem named_empty_name (p : PrimaryKeyConstraint) (f : ForeignKeyConstraint)
    (u : UniqueConstraint) (t : TableName) :
    ((Constraint.pk p).Named "").Name t = "pk_" ++ t ∧
      ((Constraint.fk f).Named "").Name t = "fk_" ++ t ++ "_" ++ f.ReferencingColumnName ∧
      ((Constraint.uq u).Named "").Name t = "uq_" ++ t ++ "_" ++ "_".intercalate u.ColumnNames := by
  refine ⟨?_, ?_, ?_⟩
  · simp [Constraint.Named, PrimaryKeyConstraint.Named, Constraint.Name,
      PrimaryKeyConstraint.Name, ConstraintTypePrimaryKey, ConstraintType.String,
      ValuerString.NewString, ValuerString.String]
  · simp [Constraint.Named, ForeignKeyConstraint.Named, Constraint.Name,
      ForeignKeyConstraint.Name, ConstraintTypeForeignKey, ConstraintType.String,
      ValuerString.NewString, ValuerString.String]
  · simp [Constraint.Named, UniqueConstraint.Named, Constraint.Name,
      UniqueConstraint.Name, ConstraintTypeUnique, ConstraintType.String,
      ValuerString.NewString, ValuerString.String, writeSeparated_append_zero]

/-- C10: a unique constraint with no explicit name is named uq_, the table name,
an underscore, and its columns in declaration order joined by underscores,
nothing truncated or case-folded; with no columns the name is uq_, the table
name and a trailing underscore. -/
theorem unique_name_of_unnamed (u : UniqueConstraint) (t : TableName) (h : u.name = "") :
    u.Name t = "uq_" ++ t ++ "_" ++ "_".intercalate u.ColumnNames ∧
      (u.ColumnNames = [] → u.Name t = "uq_" ++ t ++ "_") := by
  have key : u.Name t = "uq_" ++ t ++ "_" ++ "_".intercalate u.ColumnNames := by
    simp [UniqueConstraint.Name, h, ConstraintTypeUnique, ConstraintType.String,
      ValuerString.NewString, ValuerString.String, writeSeparated_append_zero]
  refine ⟨key, fun hc => ?_⟩
  rw [key, hc]
  simp [String.intercalate]

/-- Witness for C10: columns [email, tenant] and no columns, on table users. -/
theorem unique_name_of_unnamed_witness :
    UniqueConstraint.Name ⟨["email", "tenant"], ""⟩ "users" = "uq_users_email_tenant" ∧
      UniqueConstraint.Name ⟨[], ""⟩ "users" = "uq_users_" :=
  ⟨(unique_name_of_unnamed ⟨["email", "tenant"], ""⟩ "users" rfl).1,
    (unique_name_of_unnamed ⟨[], ""⟩ "users" rfl).2 rfl⟩

/-- C11: with no explicit name, a primary key on table t is named pk_t whatever
its columns, and a foreign key with referencing column rc is named fk_t_rc
whatever the referenced table and column. -/
theorem primaryKey_foreignKey_name_of_unnamed (p : PrimaryKeyConstraint)
    (f : ForeignKeyConstraint) (t : TableName) (hp : p.name = "") (hf : f.name = "") :
    p.Name t = "pk_" ++ t ∧ f.Name t = "fk_" ++ t ++ "_" ++ f.ReferencingColumnName := by
  constructor
  · simp [PrimaryKeyConstraint.Name, hp, ConstraintTypePrimaryKey, ConstraintType.String,
      ValuerString.NewString, ValuerString.String]
  · simp [ForeignKeyConstraint.Name, hf, ConstraintTypeForeignKey, ConstraintType.String,
      ValuerString.NewString, ValuerString.String]

/-- Witness for C11: a primary key and a foreign key on table orders. -/
theorem primaryKey_foreignKey_name_of_unnamed_witness :
    PrimaryKeyConstraint.Name ⟨["tenant", "id"], ""⟩ "orders" = "pk_orders" ∧
      ForeignKeyConstraint.Name ⟨"user_id", "users", "id", ""⟩ "orders" = "fk_orders_user_id" :=
  primaryKey_foreignKey_name_of_unnamed ⟨["tenant", "id"], ""⟩ ⟨"user_id", "users", "id", ""⟩
    "orders" rfl rfl

/-! ## Definition SQL -/

/-- C12: with a formatter that appends the quoted form q(s) of an identifier,
the definition of a primary key is CONSTRAINT, the quoted name, PRIMARY KEY and,
in parentheses, the quoted columns in declaration order joined by a comma and a
space. -/
theorem primaryKey_toDefinitionSQL (p : PrimaryKeyConstraint) (t : TableName)
    (fmter : SQLFormatter) (q : String → String)
    (hq : ∀ b s, fmter.AppendIdent b s = b ++ q s) :
    p.ToDefinitionSQL fmter t =
      "CONSTRAINT " ++ q (p.Name t) ++ " PRIMARY KEY (" ++
        ", ".intercalate (p.ColumnNames.map q) ++ ")" := by
  simp [PrimaryKeyConstraint.ToDefinitionSQL, hq,
    writeSeparated_quoted_zero ", " _ fmter.AppendIdent q hq]

/-- Witness for C12: columns [tenant, id] under the explicit name accounts_pkey,
double-quoted. -/
theorem primaryKey_toDefinitionSQL_witness :
    PrimaryKeyConstraint.ToDefinitionSQL ⟨["tenant", "id"], "accounts_pkey"⟩
        doubleQuoteFormatter "accounts" =
      "CONSTRAINT \"accounts_pkey\" PRIMARY KEY (\"tenant\", \"id\")" :=
  primaryKey_toDefinitionSQL ⟨["tenant", "id"], "accounts_pkey"⟩ "accounts"
    doubleQuoteFormatter (fun s => "\"" ++ s ++ "\"") doubleQuoteFormatter_appendIdent

/-- C13: with a formatter that appends the quoted form q(s) of an identifier,
the definition of a foreign key is CONSTRAINT, the quoted name, FOREIGN KEY, the
quoted referencing column in parentheses, REFERENCES, the quoted referenced
table and the quoted referenced column in parentheses. -/
theorem foreignKey_toDefinitionSQL (f : ForeignKeyConstraint) (t : TableName)
    (fmter : SQLFormatter) (q : String → String)
    (hq : ∀ b s, fmter.AppendIdent b s = b ++ q s) :
    f.ToDefinitionSQL fmter t =
      "CONSTRAINT " ++ q (f.Name t) ++ " FOREIGN KEY (" ++ q f.ReferencingColumnName ++
        ") REFERENCES " ++ q f.ReferencedTableName ++ " (" ++ q f.ReferencedColumnName ++ ")" := by
  simp [ForeignKeyConstraint.ToDefinitionSQL, hq]

/-- Witness for C13: user_id referencing users(id) on table orders,
double-quoted. -/
theorem foreignKey_toDefinitionSQL_witness :
    ForeignKeyConstraint.ToDefinitionSQL ⟨"user_id", "users", "id", ""⟩
        doubleQuoteFormatter "orders" =
      "CONSTRAINT \"fk_orders_user_id\" FOREIGN KEY (\"user_id\") REFERENCES \"users\" (\"id\")" :=
  foreignKey_toDefinitionSQL ⟨"user_id", "users", "id", ""⟩ "orders"
    doubleQuoteFormatter (fun s => "\"" ++ s ++ "\"") doubleQuoteFormatter_appendIdent

/-- C14: with a formatter that appends the quoted form q(s) of an identifier,
the definition of a unique constraint is CONSTRAINT, the quoted name, UNIQUE
and, in parentheses, the quoted columns in declaration order joined by a comma
and a space; with no columns the parentheses are empty. -/
theorem unique_toDefinitionSQL (u : UniqueConstraint) (t : TableName)
    (fmter : SQLFormatter) (q : String → String)
    (hq : ∀ b s, fmter.AppendIdent b s = b ++ q s) :
    u.ToDefinitionSQL fmter t =
        "CONSTRAINT " ++ q (u.Name t) ++ " UNIQUE (" ++
          ", ".intercalate (u.ColumnNames.map q) ++ ")" ∧
      (u.ColumnNames = [] →
        u.ToDefinitionSQL fmter t = "CONSTRAINT " ++ q (u.Name t) ++ " UNIQUE ()") := by
  have key : u.ToDefinitionSQL fmter t =
      "CONSTRAINT " ++ q (u.Name t) ++ " UNIQUE (" ++
        ", ".intercalate (u.ColumnNames.map q) ++ ")" := by
    simp [UniqueConstraint.ToDefinitionSQL, hq,
      writeSeparated_quoted_zero ", " _ fmter.AppendIdent q hq]
  refine ⟨key, fun hc => ?_⟩
  rw [key, hc]
  simp [String.intercalate, String.append_assoc]

/-- Witness for C14: columns [email, tenant] and no columns on table users,
double-quoted. -/
theorem unique_toDefinitionSQL_witness :
    UniqueConstraint.ToDefinitionSQL ⟨["email", "tenant"], ""⟩ doubleQuoteFormatter "users" =
        "CONSTRAINT \"uq_users_email_tenant\" UNIQUE (\"email\", \"tenant\")" ∧
      UniqueConstraint.ToDefinitionSQL ⟨[], ""⟩ doubleQuoteFormatter "users" =
        "CONSTRAINT \"uq_users_\" UNIQUE ()" :=
  ⟨(unique_toDefinitionSQL ⟨["email", "tenant"], ""⟩ "users" doubleQuoteFormatter
      (fun s => "\"" ++ s ++ "\"") doubleQuoteFormatter_appendIdent).1,
    (unique_toDefinitionSQL ⟨[], ""⟩ "users" doubleQuoteFormatter
      (fun s => "\"" ++ s ++ "\"") doubleQuoteFormatter_appendIdent).2 rfl⟩

/-! ## Drop SQL and the end of the rendered buffers -/

/-- C15: with a formatter that appends the quoted form q(s) of an identifier,
the drop statement of a constraint of any kind is ALTER TABLE, the quoted
table, DROP CONSTRAINT IF EXISTS and the quoted name; hence two constraints, of
whatever kinds, with the same name for t render the same statement. -/
theorem toDropSQL_shape (c d : Constraint) (t : TableName) (fmter : SQLFormatter)
    (q : String → String) (hq : ∀ b s, fmter.AppendIdent b s = b ++ q s) :
    c.ToDropSQL fmter t =
        "ALTER TABLE " ++ q t ++ " DROP CONSTRAINT IF EXISTS " ++ q (c.Name t) ∧
      (c.Name t = d.Name t → c.ToDropSQL fmter t = d.ToDropSQL fmter t) := by
  refine ⟨toDropSQL_eq c t fmter q hq, fun h => ?_⟩
  rw [toDropSQL_eq c t fmter q hq, toDropSQL_eq d t fmter q hq, h]

/-- Witness for C15: the primary key of users and a unique constraint renamed
pk_users, double-quoted. -/
theorem toDropSQL_shape_witness :
    Constraint.ToDropSQL (.pk ⟨["id"], ""⟩) doubleQuoteFormatter "users" =
        "ALTER TABLE \"users\" DROP CONSTRAINT IF EXISTS \"pk_users\"" ∧
      Constraint.ToDropSQL (.pk ⟨["id"], ""⟩) doubleQuoteFormatter "users" =
        Constraint.ToDropSQL (.uq ⟨["email"], "pk_users"⟩) doubleQuoteFormatter "users" :=
  have h := toDropSQL_shape (.pk ⟨["id"], ""⟩) (.uq ⟨["email"], "pk_users"⟩) "users"
    doubleQuoteFormatter (fun s => "\"" ++ s ++ "\"") doubleQuoteFormatter_appendIdent
  ⟨h.1, h.2 (by decide)⟩

/-- C16: with a formatter that appends a quoted identifier, that is some text
for the identifier followed by a closing quote character that is neither
whitespace nor a semicolon, the definition fragment of every constraint ends in
a closing parenthesis and its drop statement ends in the closing quote; so
neither buffer ends in whitespace, a semicolon or a newline. -/
theorem sql_last_character (c : Constraint) (t : TableName) (fmter : SQLFormatter)
    (body : String → String) (close : Char)
    (hq : ∀ b s, fmter.AppendIdent b s = b ++ body s ++ String.singleton close)
    (hclose : close.isWhitespace = false ∧ close ≠ ';') :
    (c.ToDefinitionSQL fmter t).data.getLast? = some ')' ∧
      (c.ToDropSQL fmter t).data.getLast? = some close ∧
      ∀ sql ∈ [c.ToDefinitionSQL fmter t, c.ToDropSQL fmter t],
        ∃ ch, sql.data.getLast? = some ch ∧ ch.isWhitespace = false ∧ ch ≠ ';' ∧ ch ≠ '\n' := by
  have hdef : (c.ToDefinitionSQL fmter t).data.getLast? = some ')' := by
    obtain ⟨pre, hpre⟩ := toDefinitionSQL_eq_append_paren c t fmter
    rw [hpre]
    exact getLast?_append_singleton pre ')'
  have hdrop : (c.ToDropSQL fmter t).data.getLast? = some close := by
    rw [toDropSQL_eq c t fmter (fun s => body s ++ String.singleton close)
      (fun b s => by rw [hq, String.append_assoc]), ← String.append_assoc]
    exact getLast?_append_singleton _ close
  have hnl : ∀ ch : Char, ch.isWhitespace = false → ch ≠ '\n' := by
    intro ch hws h
    rw [h] at hws
    exact absurd hws (by decide)
  refine ⟨hdef, hdrop, ?_⟩
  intro sql hsql
  simp only [List.mem_cons, List.mem_singleton, List.not_mem_nil, or_false] at hsql
  rcases hsql with rfl | rfl
  · exact ⟨')', hdef, by decide, by decide, by decide⟩
  · exact ⟨close, hdrop, hclose.1, hclose.2, hnl close hclose.1⟩

/-- Witness for C16: the unique constraint on [email, tenant] of table users,
double-quoted. -/
theorem sql_last_character_witness :
    (UniqueConstraint.ToDefinitionSQL ⟨["email", "tenant"], ""⟩ doubleQuoteFormatter
        "users").data.getLast? = some ')' ∧
      (UniqueConstraint.ToDropSQL ⟨["email", "tenant"], ""⟩ doubleQuoteFormatter
        "users").data.getLast? = some '"' :=
  have h := sql_last_character (.uq ⟨["email", "tenant"], ""⟩) "users" doubleQuoteFormatter
    (fun s => "\"" ++ s) '"' (fun b s => by simp [doubleQuoteFormatter, String.append_assoc]; rfl)
    (by decide)
  ⟨h.1, h.2.1⟩

/-! ## Named: what it keeps and what it leaves untouched -/

theorem getElem?_append_of_eq_some {h l : Heap} {i : Nat} {x : Cell} (hx : h[i]? = some x) :
    (h ++ l)[i]? = some x := by
  obtain ⟨hi, _⟩ := List.getElem?_eq_some.mp hx
  rw [List.getElem?_append_left hi, hx]

/-- Cells allocated later do not change what a valid slice reads. -/
theorem readColumns_append {h : Heap} (l : Heap) {s : ColumnSlice} {cols : List ColumnName}
    (hr : h.readColumns s = some cols) : Heap.readColumns (h ++ l) s = some cols := by
  unfold Heap.readColumns at hr ⊢
  cases hget : h[s.array]? with
  | none => simp [hget] at hr
  | some cell => rw [getElem?_append_of_eq_some hget]; rw [hget] at hr; exact hr

/-- Cells allocated later do not change what a valid pointer loads. -/
theorem load_append {h : Heap} (l : Heap) {p : Nat} {v : Constraint}
    (hv : h.load p = some v) : Heap.load (h ++ l) p = some v := by
  unfold Heap.load at hv ⊢
  cases hget : h[p]? with
  | none => simp [hget] at hv
  | some cell =>
    rw [getElem?_append_of_eq_some hget]
    rw [hget] at hv
    cases cell with
    | columns elems => simp at hv
    | foreignKey value => exact hv
    | primaryKey cs name =>
      cases hr : h.readColumns cs with
      | none => simp [hr] at hv
      | some cols => simp only [hr, readColumns_append l hr] at hv ⊢; exact hv
    | unique cs name =>
      cases hr : h.readColumns cs with
      | none => simp [hr] at hv
      | some cols => simp only [hr, readColumns_append l hr] at hv ⊢; exact hv

theorem readColumns_length {h : Heap} {s : ColumnSlice} {cols : List ColumnName}
    (hr : h.readColumns s = some cols) : cols.length = s.len := by
  unfold Heap.readColumns at hr
  split at hr
  · split at hr
    · rename_i hle
      cases hr
      exact List.length_take_of_le hle
    · cases hr
  · cases hr

/-- The heap after `make` and `copy` of a valid slice: one new cell, holding the
elements of the slice. -/
theorem copyColumns_makeColumns {h : Heap} {s : ColumnSlice} {cols : List ColumnName}
    (hr : h.readColumns s = some cols) :
    Heap.copyColumns (h.makeColumns s.len).1 (h.makeColumns s.len).2 s =
      h ++ [.columns cols] := by
  have hlen := readColumns_length hr
  have hnew : (h ++ [Cell.columns (List.replicate s.len "")])[h.length]? =
      some (Cell.columns (List.replicate s.len "")) := List.getElem?_concat_length _ _
  simp only [Heap.makeColumns, Heap.alloc, Heap.copyColumns, hnew, readColumns_append _ hr,
    Nat.min_self]
  rw [List.set_append_right _ _ (Nat.le_refl _), List.take_of_length_le hlen.le,
    List.drop_of_length_le (by simp)]
  simp

theorem readColumns_fresh (h l : Heap) (cols : List ColumnName) :
    Heap.readColumns (h ++ Cell.columns cols :: l) ⟨h.length, cols.length⟩ = some cols := by
  have hget : (h ++ Cell.columns cols :: l)[h.length]? = some (Cell.columns cols) := by
    rw [List.getElem?_append_right (Nat.le_refl _)]
    simp
  unfold Heap.readColumns
  simp only [hget]
  simp

/-- The call on a pointer to a primary key with a valid slice: two cells are
allocated, the copied columns and the new struct. -/
theorem namedAt_primaryKey {h : Heap} {c : Nat} {s : ColumnSlice} {old : String}
    {cols : List ColumnName} (n : String) (hc : h[c]? = some (.primaryKey s old))
    (hr : h.readColumns s = some cols) :
    Constraint.NamedAt h c n =
      some (h ++ [.columns cols, .primaryKey ⟨h.length, cols.length⟩ n], h.length + 1) := by
  have hcopy := copyColumns_makeColumns hr
  have hlen := readColumns_length hr
  simp only [Constraint.NamedAt, PrimaryKeyConstraint.NamedAt, hc, hcopy, Heap.alloc]
  simp [Heap.makeColumns, Heap.alloc, hlen]

/-- The call on a pointer to a unique constraint with a valid slice. -/
theorem namedAt_unique {h : Heap} {c : Nat} {s : ColumnSlice} {old : String}
    {cols : List ColumnName} (n : String) (hc : h[c]? = some (.unique s old))
    (hr : h.readColumns s = some cols) :
    Constraint.NamedAt h c n =
      some (h ++ [.columns cols, .unique ⟨h.length, cols.length⟩ n], h.length + 1) := by
  have hcopy := copyColumns_makeColumns hr
  have hlen := readColumns_length hr
  simp only [Constraint.NamedAt, UniqueConstraint.NamedAt, hc, hcopy, Heap.alloc]
  simp [Heap.makeColumns, Heap.alloc, hlen]

/-- The call on a pointer to a foreign key: one cell is allocated. -/
theorem namedAt_foreignKey {h : Heap} {c : Nat} {f : ForeignKeyConstraint} (n : String)
    (hc : h[c]? = some (.foreignKey f)) :
    Constraint.NamedAt h c n =
      some (h ++ [.foreignKey ⟨f.ReferencingColumnName, f.ReferencedTableName,
        f.ReferencedColumnName, n⟩], h.length) := by
  simp [Constraint.NamedAt, ForeignKeyConstraint.NamedAt, hc, Heap.alloc]

/-- Every pointer that loads a constraint is renamed successfully: the heap
after the call extends the heap before it, and the returned pointer loads the
renamed value of the value-level method. -/
theorem namedAt_of_load {h : Heap} {c : Nat} {v : Constraint} (n : String)
    (hv : h.load c = some v) :
    ∃ l r, Constraint.NamedAt h c n = some (h ++ l, r) ∧
      Heap.load (h ++ l) r = some (v.Named n) := by
  unfold Heap.load at hv
  cases hget : h[c]? with
  | none => simp [hget] at hv
  | some cell =>
    rw [hget] at hv
    cases cell with
    | columns elems => simp at hv
    | foreignKey f =>
      cases hv
      refine ⟨_, _, namedAt_foreignKey n hget, ?_⟩
      simp [Heap.load, Constraint.Named, ForeignKeyConstraint.Named]
    | primaryKey s old =>
      cases hr : h.readColumns s with
      | none => simp [hr] at hv
      | some cols =>
        simp only [hr, Option.map_some', Option.some.injEq] at hv
        subst hv
        refine ⟨_, _, namedAt_primaryKey n hget hr, ?_⟩
        have hnew : (h ++ [Cell.columns cols, Cell.primaryKey ⟨h.length, cols.length⟩ n])[
            h.length + 1]? = some (Cell.primaryKey ⟨h.length, cols.length⟩ n) := by
          rw [List.getElem?_append_right (Nat.le_succ _)]
          simp
        simp only [Heap.load, hnew, readColumns_fresh, Option.map_some', Constraint.Named,
          PrimaryKeyConstraint.Named]
    | unique s old =>
      cases hr : h.readColumns s with
      | none => simp [hr] at hv
      | some cols =>
        simp only [hr, Option.map_some', Option.some.injEq] at hv
        subst hv
        refine ⟨_, _, namedAt_unique n hget hr, ?_⟩
        have hnew : (h ++ [Cell.columns cols, Cell.unique ⟨h.length, cols.length⟩ n])[
            h.length + 1]? = some (Cell.unique ⟨h.length, cols.length⟩ n) := by
          rw [List.getElem?_append_right (Nat.le_succ _)]
          simp
        simp only [Heap.load, hnew, readColumns_fresh, Option.map_some', Constraint.Named,
          UniqueConstraint.Named]

/-- C17: Named keeps kind and columns and leaves its receiver alone. For a
pointer c that holds the constraint v, the call c.Named(n) returns a pointer to
the value v.Named(n), which has the kind of v and the columns of v, element for
element in order, and for a foreign key the same referenced table and column;
after the call c still holds v, explicit name included, and every cell that
existed before the call is unchanged. -/
theorem named_preserves_kind_and_columns (h : Heap) (c : Nat) (v : Constraint) (n : String)
    (hv : h.load c = some v) :
    ∃ h2 r, Constraint.NamedAt h c n = some (h2, r) ∧ h2.load r = some (v.Named n) ∧
      (v.Named n).Type = v.Type ∧ (v.Named n).Columns = v.Columns ∧
      (∀ f, v = .fk f → ∃ g, v.Named n = .fk g ∧
        g.ReferencedTableName = f.ReferencedTableName ∧
        g.ReferencedColumnName = f.ReferencedColumnName) ∧
      h2.load c = some v ∧ ∀ a, a < h.length → h2[a]? = h[a]? := by
  obtain ⟨l, r, hcall, hres⟩ := namedAt_of_load n hv
  refine ⟨h ++ l, r, hcall, hres, ?_, ?_, ?_, load_append l hv, ?_⟩
  · cases v <;> rfl
  · cases v <;> rfl
  · rintro f rfl
    exact ⟨_, rfl, rfl, rfl⟩
  · intro a ha
    exact List.getElem?_append_left ha

/-- Witness for C17: a named primary key on [a, b] at address 1, its columns in
the backing array at address 0. -/
theorem named_preserves_kind_and_columns_witness :
    ∃ h2 r, Constraint.NamedAt [.columns ["a", "b", "z"], .primaryKey ⟨0, 2⟩ "old"] 1 "new" =
        some (h2, r) ∧
      h2.load r = some (.pk ⟨["a", "b"], "new"⟩) ∧
      h2.load 1 = some (.pk ⟨["a", "b"], "old"⟩) :=
  have ⟨h2, r, hcall, hres, _, _, _, hsame, _⟩ := named_preserves_kind_and_columns
    [.columns ["a", "b", "z"], .primaryKey ⟨0, 2⟩ "old"] 1 (.pk ⟨["a", "b"], "old"⟩) "new"
    (by decide)
  ⟨h2, r, hcall, hres, hsame⟩

/-! ## Unique index -/

/-- C18: the index made from a unique constraint, whatever its explicit name,
has the given table name and exactly the constraint columns in declaration
order; columns [email] on table users give table users and columns [email]. -/
theorem unique_toIndex (u : UniqueConstraint) (t : TableName) :
    (u.ToIndex t).TableName = t ∧ (u.ToIndex t).ColumnNames = u.ColumnNames ∧
      UniqueConstraint.ToIndex ⟨["email"], ""⟩ "users" =
        { TableName := "users", ColumnNames := ["email"] } := by
  simp [UniqueConstraint.ToIndex]

/-! ## What the two column-list comparisons compute -/

/-- C19: for primary keys p and q whose column lists each contain no duplicate,
p.Equals(q), taken through the interface, is true if and only if every column
of either is a column of the other. -/
theorem primaryKey_equals_iff_mem_iff_of_nodup (p q : PrimaryKeyConstraint)
    (hp : p.ColumnNames.Nodup) (hq : q.ColumnNames.Nodup) :
    (Constraint.pk p).Equals (.pk q) = true ↔ ∀ x, x ∈ p.ColumnNames ↔ x ∈ q.ColumnNames := by
  simp only [Constraint.Equals, pk_equals_pk_iff]
  constructor
  · rintro ⟨hlen, hsub⟩ x
    exact ⟨subset_of_nodup_of_subset_of_length_le hq hsub hlen.le x, hsub x⟩
  · intro h
    exact ⟨((List.perm_ext_iff_of_nodup hp hq).mpr h).length_eq, fun x hx => (h x).mpr hx⟩

/-- Witness for C19: primary keys on [tenant, id] and on [id, tenant]. -/
theorem primaryKey_equals_iff_mem_iff_of_nodup_witness :
    (Constraint.pk ⟨["tenant", "id"], ""⟩).Equals (.pk ⟨["id", "tenant"], "k"⟩) = true ↔
      ∀ x, x ∈ (["tenant", "id"] : List ColumnName) ↔ x ∈ (["id", "tenant"] : List ColumnName) :=
  primaryKey_equals_iff_mem_iff_of_nodup ⟨["tenant", "id"], ""⟩ ⟨["id", "tenant"], "k"⟩
    (by decide) (by decide)

/-- C20: for unique constraints u, v, w, u.Equals(v) is true if and only if every
column of v occurs among the columns of u, lengths not being compared; so
u.Equals(u) holds, u.Equals(v) with v.Equals(w) gives u.Equals(w), and u.Equals(v)
holds whenever v has no columns. -/
theorem unique_equals_iff_columns_subset (u v w : UniqueConstraint) :
    (u.Equals (.uq v) = true ↔ ∀ x ∈ v.ColumnNames, x ∈ u.ColumnNames) ∧
      u.Equals (.uq u) = true ∧
      (u.Equals (.uq v) = true → v.Equals (.uq w) = true → u.Equals (.uq w) = true) ∧
      (v.ColumnNames = [] → u.Equals (.uq v) = true) := by
  refine ⟨uq_equals_uq_iff u v, ?_, ?_, ?_⟩
  · exact (uq_equals_uq_iff u u).mpr fun x hx => hx
  · intro huv hvw
    rw [uq_equals_uq_iff] at huv hvw ⊢
    exact fun x hx => huv x (hvw x hx)
  · intro hv
    rw [uq_equals_uq_iff, hv]
    exact fun x hx => absurd hx (List.not_mem_nil x)

/-- Witness for C20: unique constraints on [a, b], on [a] and on no column. -/
theorem unique_equals_iff_columns_subset_witness :
    UniqueConstraint.Equals ⟨["a", "b"], ""⟩ (.uq ⟨[], ""⟩) = true ∧
      UniqueConstraint.Equals ⟨["a", "b", "c"], ""⟩ (.uq ⟨["a"], ""⟩) = true :=
  ⟨(unique_equals_iff_columns_subset ⟨["a", "b"], ""⟩ ⟨[], ""⟩ ⟨[], ""⟩).2.2.2 rfl,
    (unique_equals_iff_columns_subset ⟨["a", "b", "c"], ""⟩ ⟨["a", "b"], ""⟩ ⟨["a"], ""⟩).2.2.1
      (by decide) (by decide)⟩


end sqlschema
